import Mathlib

/-!
Verification of the parameter-container runtime in `src/module/param.rs`.

The file first embeds the collaborators that the container code uses
(tensor-like leaf values, the serializable state tree, devices and the
backend-agnostic data representation), then translates the four
`impl ... Param<...>` blocks of `param.rs`, and finally proves the
stated properties of the five container operations.

Mutation is modelled by explicit state passing: a `Store` is the heap of
tensor buffers, a `Tensor` holds the index of its buffer, and every
in-place Rust operation (`to_device`, `load`, `update_params`, plus the
allocation performed by `inner`) takes and returns a `Store`.
-/

namespace Burn

/-- Modelled from the spec: the backend's device identity (`B::Device`),
an external collaborator of the core; only equality of devices is used. -/
structure Device where
  id : Nat
deriving DecidableEq, Repr

/-- Modelled from the spec: the backend-agnostic serialized tensor data
(`DataSerialize` of the tensor crate, produced by `Data::serialize`).
Serialization must round-trip losslessly, so it carries the same
fields as `Data`. -/
structure DataSerialize where
  value : List Int
  shape : List Nat
deriving DecidableEq, Repr

/-- Modelled from the spec: the tensor crate's `Data` (element values plus
shape), the in-memory form leaf tensors serialize to and load from. -/
structure TensorData where
  value : List Int
  shape : List Nat
deriving DecidableEq, Repr

/-- Modelled from the spec: `Data::serialize`, lossless. -/
def TensorData.serialize (d : TensorData) : DataSerialize :=
  ⟨d.value, d.shape⟩

/-- Modelled from the spec: `Data::from(&DataSerialize)`, the lossless
deserialization used by every `load` path. -/
def TensorData.ofSerialize (s : DataSerialize) : TensorData :=
  ⟨s.value, s.shape⟩

/-- Modelled from the spec: `Shape::num_elements`, the element count of a
shape, i.e. the product of its dimensions (computed by a running product). -/
def Shape.num_elements (shape : List Nat) : Nat :=
  shape.foldl (fun acc d => acc * d) 1

/-- The heap of tensor buffers; index `i` holds the element values of the
tensor whose `id` is `i`. -/
abbrev Store := List (List Int)

/-- Read the buffer of tensor id `i` (out-of-range reads give `[]`). -/
def Store.read (σ : Store) (i : Nat) : List Int :=
  σ.getD i []

/-- Overwrite the buffer of tensor id `i` in place (models in-place
mutation of an existing tensor's data, e.g. by an optimizer). -/
def Store.write (σ : Store) (i : Nat) (v : List Int) : Store :=
  σ.set i v

/-- Allocate a fresh buffer holding `v`; returns the new id. -/
def Store.alloc (σ : Store) (v : List Int) : Nat × Store :=
  (σ.length, σ ++ [v])

/-- Modelled from the spec: a leaf tensor value of the backend
(`Tensor<B, D>`), an external collaborator exposing shape introspection,
device identity, device transfer and to/from-data conversion. Its element
data lives in the `Store` at index `id`. -/
structure Tensor where
  id : Nat
  shape : List Nat
  device : Device
deriving DecidableEq, Repr

/-- Modelled from the spec: `Tensor::to_data`, reading the tensor's
element values and shape out of the backend. -/
def Tensor.to_data (σ : Store) (t : Tensor) : TensorData :=
  ⟨σ.read t.id, t.shape⟩

/-- Modelled from the spec: `Tensor::from_data_device`, constructing a
fresh tensor on `dev` holding a copy of `d`. -/
def Tensor.from_data_device (σ : Store) (d : TensorData) (dev : Device) :
    Tensor × Store :=
  let (i, σ') := σ.alloc d.value
  (⟨i, d.shape, dev⟩, σ')

/-- Modelled from the spec: `Tensor::to_device`, a copy of the tensor
materialized on `dev`; a no-op if the tensor already resides there. -/
def Tensor.to_device (σ : Store) (t : Tensor) (dev : Device) :
    Tensor × Store :=
  if t.device = dev then (t, σ)
  else
    let (i, σ') := σ.alloc (σ.read t.id)
    (⟨i, t.shape, dev⟩, σ')

/-- Modelled from the spec: `Tensor::inner`, a freshly constructed
independent copy of the tensor on the non-differentiable backend,
sharing no mutable state with the original. -/
def Tensor.inner (σ : Store) (t : Tensor) : Tensor × Store :=
  let (i, σ') := σ.alloc (σ.read t.id)
  (⟨i, t.shape, t.device⟩, σ')

/-- The serializable state tree (`State<B>` of `module/state.rs`):
either raw serialized leaf data or a named node mapping string keys to
sub-trees. Named entries are kept in insertion order. -/
inductive State where
  | Data (data : DataSerialize)
  | StateNamed (entries : List (String × State))
deriving Repr

/-- Entry list of a named state node (`StateNamed<B>`). -/
abbrev StateNamedEntries := List (String × State)

/-- Modelled from the spec: `StateNamed::new()`, the empty named node. -/
def StateNamedEntries.new : StateNamedEntries := []

/-- Modelled from the spec: `StateNamed::register_state`, adding one
keyed child (keys are unique within a node, order is insertion order). -/
def StateNamedEntries.register_state (s : StateNamedEntries) (name : String)
    (st : State) : StateNamedEntries :=
  s ++ [(name, st)]

/-- Modelled from the spec: `State::get(name)` as used by the sequence
container's `load`: look the key up in the named node; a missing key (or a
leaf receiver, a shape mismatch) yields a default empty state rather than
failing. -/
def State.get (st : State) (name : String) : State :=
  match st with
  | .StateNamed entries =>
    match entries.lookup name with
    | some child => child
    | none => .StateNamed StateNamedEntries.new
  | .Data _ => .StateNamed StateNamedEntries.new

/-- Modelled from the spec: the opaque gradient bag; the core passes it
through to the optimizer unmodified. -/
structure Gradients where
  entries : List (Nat × List Int)
deriving DecidableEq, Repr

/-- Modelled from the spec: the optimizer collaborator, exposing one
operation `update(tensor_ref, gradients)` that mutates the tensor in
place (here: returns the updated tensor and store). -/
structure Optimizer where
  update : Store → Tensor → Gradients → Tensor × Store

/-- The parameter container `Param<T>` together with its four recognized
value shapes, modelled (as §9 of the spec prescribes) as a tagged-variant
hierarchy: a held leaf tensor (`Param<Tensor<B, D>>`), an optional leaf
tensor (`Param<Option<Tensor<B, D>>>`), a nested module (`Param<M>`), and
an ordered sequence of modules (`Param<Vec<M>>`). A Module-conforming
value is itself one of these shapes, which closes the recursion. -/
inductive Param where
  | tensor (value : Tensor)
  | optTensor (value : Option Tensor)
  | module (value : Param)
  | vec (value : List Param)
deriving Repr

mutual

/-- The four `num_params` implementations of `param.rs`: element count of
the held tensor; 0 for an absent optional; forwarding for a nested
module; the running sum over a sequence. -/
def Param.num_params : Param → Nat
  | .tensor value => Shape.num_elements value.shape
  | .optTensor (some value) => Shape.num_elements value.shape
  | .optTensor none => 0
  | .module value => Param.num_params value
  | .vec value => Param.num_params_vec value

/-- The `for module in self.value.iter()` accumulation of
`Param<Vec<M>>::num_params`. -/
def Param.num_params_vec : List Param → Nat
  | [] => 0
  | m :: ms => Param.num_params m + Param.num_params_vec ms

end

mutual

/-- The four `devices` implementations: singleton of the held tensor's
device; empty for an absent optional; forwarding; concatenation over a
sequence in order, duplicates retained. -/
def Param.devices : Param → List Device
  | .tensor value => [value.device]
  | .optTensor (some value) => [value.device]
  | .optTensor none => []
  | .module value => Param.devices value
  | .vec value => Param.devices_vec value

/-- The append loop of `Param<Vec<M>>::devices`. -/
def Param.devices_vec : List Param → List Device
  | [] => []
  | m :: ms => Param.devices m ++ Param.devices_vec ms

end

mutual

/-- The four `state` implementations: leaf data for a held tensor (also
for a present optional); an empty named node for an absent optional;
forwarding; a named node keyed `"mod-<i>"` per element for a sequence. -/
def Param.state (σ : Store) : Param → State
  | .tensor value => .Data (Tensor.to_data σ value).serialize
  | .optTensor (some value) => .Data (Tensor.to_data σ value).serialize
  | .optTensor none => .StateNamed StateNamedEntries.new
  | .module value => Param.state σ value
  | .vec value => .StateNamed (Param.state_vec σ value 0)

/-- The enumerate-and-register loop of `Param<Vec<M>>::state`: element
`i` (zero-based) is registered under key `"mod-" ++ toString i`. -/
def Param.state_vec (σ : Store) : List Param → Nat → StateNamedEntries
  | [], _ => []
  | m :: ms, i => ("mod-" ++ toString i, Param.state σ m) :: Param.state_vec σ ms (i + 1)

end

mutual

/-- The four `load` implementations: a leaf reconstructs the tensor from
`Data` on its current device and silently ignores a named state; an
absent optional ignores every state; a present optional reconstructs from
`Data` on its current device; a nested module forwards; a sequence looks
up each element's positional key and recurses. -/
def Param.load (σ : Store) : Param → State → Param × Store
  | .tensor value, .Data data =>
    let (t, σ') := Tensor.from_data_device σ (TensorData.ofSerialize data) value.device
    (.tensor t, σ')
  | .tensor value, .StateNamed _ => (.tensor value, σ)
  | .optTensor value, .Data data =>
    match value with
    | some v =>
      let (t, σ') := Tensor.from_data_device σ (TensorData.ofSerialize data) v.device
      (.optTensor (some t), σ')
    | none => (.optTensor none, σ)
  | .optTensor value, .StateNamed _ => (.optTensor value, σ)
  | .module value, st =>
    let (m', σ') := Param.load σ value st
    (.module m', σ')
  | .vec value, st =>
    let (ms', σ') := Param.load_vec σ value st 0
    (.vec ms', σ')

/-- The `iter_mut().enumerate()` loop of `Param<Vec<M>>::load`: element
`i` is loaded from `state.get("mod-" ++ toString i)`, threading the
store left to right. -/
def Param.load_vec (σ : Store) : List Param → State → Nat → List Param × Store
  | [], _, _ => ([], σ)
  | m :: ms, st, i =>
    let (m', σ') := Param.load σ m (st.get ("mod-" ++ toString i))
    let (ms', σ'') := Param.load_vec σ' ms st (i + 1)
    (m' :: ms', σ'')

end

mutual

/-- The four `to_device` implementations: replace the held tensor by its
copy on `dev`; no-op for an absent optional; forwarding; element-wise for
a sequence. -/
def Param.to_device (σ : Store) : Param → Device → Param × Store
  | .tensor value, dev =>
    let (t, σ') := Tensor.to_device σ value dev
    (.tensor t, σ')
  | .optTensor (some value), dev =>
    let (t, σ') := Tensor.to_device σ value dev
    (.optTensor (some t), σ')
  | .optTensor none, _ => (.optTensor none, σ)
  | .module value, dev =>
    let (m', σ') := Param.to_device σ value dev
    (.module m', σ')
  | .vec value, dev =>
    let (ms', σ') := Param.to_device_vec σ value dev
    (.vec ms', σ')

/-- The `iter_mut` loop of `Param<Vec<M>>::to_device`. -/
def Param.to_device_vec (σ : Store) : List Param → Device → List Param × Store
  | [], _ => ([], σ)
  | m :: ms, dev =>
    let (m', σ') := Param.to_device σ m dev
    let (ms', σ'') := Param.to_device_vec σ' ms dev
    (m' :: ms', σ'')

end

mutual

/-- The four `update_params` implementations: delegate the held tensor to
the optimizer; no-op for an absent optional; forwarding; element-wise in
sequence order. -/
def Param.update_params (σ : Store) : Param → Gradients → Optimizer → Param × Store
  | .tensor value, g, o =>
    let (t, σ') := o.update σ value g
    (.tensor t, σ')
  | .optTensor (some value), g, o =>
    let (t, σ') := o.update σ value g
    (.optTensor (some t), σ')
  | .optTensor none, _, _ => (.optTensor none, σ)
  | .module value, g, o =>
    let (m', σ') := Param.update_params σ value g o
    (.module m', σ')
  | .vec value, g, o =>
    let (ms', σ') := Param.update_params_vec σ value g o
    (.vec ms', σ')

/-- The `iter_mut` loop of `Param<Vec<M>>::update_params`. -/
def Param.update_params_vec (σ : Store) : List Param → Gradients → Optimizer → List Param × Store
  | [], _, _ => ([], σ)
  | m :: ms, g, o =>
    let (m', σ') := Param.update_params σ m g o
    let (ms', σ'') := Param.update_params_vec σ' ms g o
    (m' :: ms', σ'')

end

mutual

/-- The four `inner` implementations: a fresh independent copy of the
held tensor on the non-differentiable backend; `Some`/`None` mapped
through; forwarding; element-wise, preserving order and length. -/
def Param.inner (σ : Store) : Param → Param × Store
  | .tensor value =>
    let (t, σ') := Tensor.inner σ value
    (.tensor t, σ')
  | .optTensor (some value) =>
    let (t, σ') := Tensor.inner σ value
    (.optTensor (some t), σ')
  | .optTensor none => (.optTensor none, σ)
  | .module value =>
    let (m', σ') := Param.inner σ value
    (.module m', σ')
  | .vec value =>
    let (ms', σ') := Param.inner_vec σ value
    (.vec ms', σ')

/-- The `iter().map(|v| v.inner()).collect()` loop of
`Param<Vec<M>>::inner`, with the store threaded left to right. -/
def Param.inner_vec (σ : Store) : List Param → List Param × Store
  | [] => ([], σ)
  | m :: ms =>
    let (m', σ') := Param.inner σ m
    let (ms', σ'') := Param.inner_vec σ' ms
    (m' :: ms', σ'')

end

mutual

/-- Observation function for the theorems below: the data of every leaf
tensor held by the container, read from `σ`, in traversal order. -/
def Param.leaf_data (σ : Store) : Param → List TensorData
  | .tensor value => [Tensor.to_data σ value]
  | .optTensor (some value) => [Tensor.to_data σ value]
  | .optTensor none => []
  | .module value => Param.leaf_data σ value
  | .vec value => Param.leaf_data_vec σ value

/-- Element-wise `Param.leaf_data` over a sequence. -/
def Param.leaf_data_vec (σ : Store) : List Param → List TensorData
  | [] => []
  | m :: ms => Param.leaf_data σ m ++ Param.leaf_data_vec σ ms

end

mutual

/-- Observation function: the buffer ids of every leaf tensor held by
the container, in traversal order. -/
def Param.tensor_ids : Param → List Nat
  | .tensor value => [value.id]
  | .optTensor (some value) => [value.id]
  | .optTensor none => []
  | .module value => Param.tensor_ids value
  | .vec value => Param.tensor_ids_vec value

/-- Element-wise `Param.tensor_ids` over a sequence. -/
def Param.tensor_ids_vec : List Param → List Nat
  | [] => []
  | m :: ms => Param.tensor_ids m ++ Param.tensor_ids_vec ms

end

mutual

/-- Observation function: every leaf tensor held by the container
resides on device `d`. -/
def Param.on_device (d : Device) : Param → Bool
  | .tensor value => value.device = d
  | .optTensor (some value) => value.device = d
  | .optTensor none => true
  | .module value => Param.on_device d value
  | .vec value => Param.on_device_vec d value

/-- Element-wise `Param.on_device` over a sequence. -/
def Param.on_device_vec (d : Device) : List Param → Bool
  | [] => true
  | m :: ms => Param.on_device d m && Param.on_device_vec d ms

end

/-- A container is well formed in a store when each of its tensors'
buffer ids points inside the store. -/
def Param.wf (σ : Store) (m : Param) : Prop :=
  ∀ i ∈ m.tensor_ids, i < σ.length

theorem Store.read_concat (σ : Store) (v : List Int) :
    Store.read (σ ++ [v]) σ.length = v := by
  simp [Store.read, List.getD, List.getElem?_concat_length]

theorem Store.read_write_ne (σ : Store) (i j : Nat) (v : List Int) (h : i ≠ j) :
    Store.read (Store.write σ i v) j = Store.read σ j := by
  simp [Store.read, Store.write, List.getD, List.getElem?_set_ne h]

theorem List.foldl_mul_eq_mul_prod (l : List Nat) (a : Nat) :
    l.foldl (fun acc d => acc * d) a = a * l.prod := by
  induction l generalizing a with
  | nil => simp
  | cons x xs ih => simp [ih, Nat.mul_assoc]

theorem Shape.num_elements_eq_prod (shape : List Nat) :
    Shape.num_elements shape = shape.prod := by
  simp [Shape.num_elements, List.foldl_mul_eq_mul_prod]

/-- C5: for a leaf-tensor container (and a present optional),
`num_params` equals the product of the held tensor's shape dimensions;
for an absent optional it is exactly 0. -/
theorem num_params_leaf (t : Tensor) :
    Param.num_params (.tensor t) = t.shape.prod ∧
    Param.num_params (.optTensor (some t)) = t.shape.prod ∧
    Param.num_params (.optTensor none) = 0 := by
  refine ⟨?_, ?_, rfl⟩ <;>
    simp [Param.num_params, Shape.num_elements_eq_prod]

/-- C6: an absent optional container is left absent (and the store
untouched) by `load`, whatever the state argument is. -/
theorem absent_optional_load_noop (σ : Store) (st : State) :
    Param.load σ (.optTensor none) st = (.optTensor none, σ) := by
  cases st <;> rfl

/-- C3: loading a `Data` state into a leaf-tensor container replaces the
held tensor by one reconstructed from that data on the container's
current (pre-load) device; loading a `StateNamed` state is silently
ignored: no mutation, no error. -/
theorem leaf_load_data_and_named (σ : Store) (t : Tensor)
    (data : DataSerialize) (entries : StateNamedEntries) :
    Param.devices (Param.load σ (.tensor t) (.Data data)).1 = [t.device] ∧
    Param.leaf_data (Param.load σ (.tensor t) (.Data data)).2
      (Param.load σ (.tensor t) (.Data data)).1 = [TensorData.ofSerialize data] ∧
    Param.load σ (.tensor t) (.StateNamed entries) = (.tensor t, σ) := by
  refine ⟨rfl, ?_, rfl⟩
  simp [Param.load, Param.leaf_data, Tensor.from_data_device, Store.alloc,
    Tensor.to_data, Store.read_concat, TensorData.ofSerialize]

/-- C9: the nested-module container is pure forwarding: every operation
returns exactly the result (or has exactly the effect) of the identically
named operation on the held module value. -/
theorem module_container_pure_forwarding (σ : Store) (m : Param)
    (g : Gradients) (o : Optimizer) (d : Device) (st : State) :
    Param.num_params (.module m) = Param.num_params m ∧
    Param.update_params σ (.module m) g o =
      ((Param.update_params σ m g o).1.module, (Param.update_params σ m g o).2) ∧
    Param.devices (.module m) = Param.devices m ∧
    Param.to_device σ (.module m) d =
      ((Param.to_device σ m d).1.module, (Param.to_device σ m d).2) ∧
    Param.state σ (.module m) = Param.state σ m ∧
    Param.load σ (.module m) st =
      ((Param.load σ m st).1.module, (Param.load σ m st).2) ∧
    Param.inner σ (.module m) =
      ((Param.inner σ m).1.module, (Param.inner σ m).2) :=
  ⟨rfl, rfl, rfl, rfl, rfl, rfl, rfl⟩

theorem state_vec_length (σ : Store) (ms : List Param) (i : Nat) :
    (Param.state_vec σ ms i).length = ms.length := by
  induction ms generalizing i with
  | nil => rfl
  | cons m ms ih => simp [Param.state_vec, ih]

theorem state_vec_keys (σ : Store) (ms : List Param) (i : Nat) :
    (Param.state_vec σ ms i).map Prod.fst =
      (List.range ms.length).map (fun j => "mod-" ++ toString (i + j)) := by
  induction ms generalizing i with
  | nil => rfl
  | cons m ms ih =>
    simp only [Param.state_vec, List.map_cons, List.length_cons,
      List.range_succ_eq_map, List.map_map]
    refine List.cons_eq_cons.mpr ⟨by simp, ?_⟩
    rw [ih (i + 1)]
    refine List.map_congr_left fun j _ => ?_
    have h : i + 1 + j = i + (j + 1) := by omega
    simp [Function.comp, h, Nat.succ_eq_add_one]

/-- C4: for a sequence container of length N, `state` returns a `Named`
node with exactly N entries, keyed by the zero-based positional keys
`"mod-0"` through `"mod-(N-1)"` in order. -/
theorem vec_state_keys (σ : Store) (ms : List Param) :
    ∃ entries : StateNamedEntries,
      Param.state σ (.vec ms) = .StateNamed entries ∧
      entries.length = ms.length ∧
      entries.map Prod.fst =
        (List.range ms.length).map (fun i => "mod-" ++ toString i) := by
  refine ⟨Param.state_vec σ ms 0, rfl, state_vec_length σ ms 0, ?_⟩
  simpa using state_vec_keys σ ms 0

mutual

theorem load_empty_named (σ : Store) (m : Param) :
    Param.load σ m (.StateNamed []) = (m, σ) := by
  cases m with
  | tensor t => rfl
  | optTensor v => cases v <;> rfl
  | module v => simp [Param.load, load_empty_named σ v]
  | vec ms => simp [Param.load, load_vec_empty_named σ ms 0]

theorem load_vec_empty_named (σ : Store) (ms : List Param) (i : Nat) :
    Param.load_vec σ ms (.StateNamed []) i = (ms, σ) := by
  cases ms with
  | nil => rfl
  | cons m ms =>
    simp [Param.load_vec, State.get, StateNamedEntries.new,
      load_empty_named σ m, load_vec_empty_named σ ms (i + 1)]

end

theorem load_vec_missing_key (σ : Store) (ms : List Param) (st : State)
    (start i : Nat)
    (h : st.get ("mod-" ++ toString (start + i)) = .StateNamed []) :
    (Param.load_vec σ ms st start).1[i]? = ms[i]? := by
  induction ms generalizing σ start i with
  | nil => rfl
  | cons m ms ih =>
    cases i with
    | zero =>
      have h0 : st.get ("mod-" ++ toString start) = .StateNamed [] := by
        simpa using h
      simp [Param.load_vec, h0, load_empty_named]
    | succ j =>
      have h1 : st.get ("mod-" ++ toString (start + 1 + j)) = .StateNamed [] := by
        have he : start + 1 + j = start + (j + 1) := by omega
        rw [he]; exact h
      simpa [Param.load_vec] using ih _ (start + 1) j h1

/-- C2: loading a `Named` state that is missing the positional key
`"mod-i"` of some element does not fail: the missing key yields the
default empty state, and that element is left unchanged by the load. -/
theorem vec_load_missing_key (σ : Store) (ms : List Param)
    (entries : StateNamedEntries) (i : Nat) (hi : i < ms.length)
    (hmiss : entries.lookup ("mod-" ++ toString i) = none) :
    (State.StateNamed entries).get ("mod-" ++ toString i) = .StateNamed [] ∧
    ∃ ms' : List Param,
      (Param.load σ (.vec ms) (.StateNamed entries)).1 = .vec ms' ∧
      ms'[i]? = ms[i]? := by
  have hget : (State.StateNamed entries).get ("mod-" ++ toString i) =
      .StateNamed [] := by
    simp [State.get, hmiss, StateNamedEntries.new]
  refine ⟨hget, (Param.load_vec σ ms (.StateNamed entries) 0).1, rfl, ?_⟩
  refine load_vec_missing_key σ ms _ 0 i ?_
  simpa using hget

theorem load_vec_length (σ : Store) (ms : List Param) (st : State) (i : Nat) :
    (Param.load_vec σ ms st i).1.length = ms.length := by
  induction ms generalizing σ i with
  | nil => rfl
  | cons m ms ih => simp [Param.load_vec, ih]

theorem load_vec_congr_get (σ : Store) (ms : List Param) (st st' : State)
    (start : Nat)
    (h : ∀ i < ms.length, st.get ("mod-" ++ toString (start + i)) =
      st'.get ("mod-" ++ toString (start + i))) :
    Param.load_vec σ ms st start = Param.load_vec σ ms st' start := by
  induction ms generalizing σ start with
  | nil => rfl
  | cons m ms ih =>
    have h0 : st.get ("mod-" ++ toString start) =
        st'.get ("mod-" ++ toString start) := by simpa using h 0 (by simp)
    have hrest : ∀ i < ms.length,
        st.get ("mod-" ++ toString (start + 1 + i)) =
          st'.get ("mod-" ++ toString (start + 1 + i)) := by
      intro i hi
      have he : start + 1 + i = start + (i + 1) := by omega
      rw [he]
      exact h (i + 1) (by simpa using Nat.succ_lt_succ hi)
    simp only [Param.load_vec, h0, ih _ (start + 1) hrest]

/-- C10: sequence load never changes the number of elements, and state
entries under keys other than the positional keys `"mod-i"` with `i`
below the current length are ignored. -/
theorem vec_load_preserves_length (σ : Store) (ms : List Param) (st : State) :
    (∃ ms' : List Param, (Param.load σ (.vec ms) st).1 = .vec ms' ∧
      ms'.length = ms.length) ∧
    ∀ entries : StateNamedEntries, ∀ k : String, ∀ s : State,
      (∀ i < ms.length, k ≠ "mod-" ++ toString i) →
      Param.load σ (.vec ms) (.StateNamed (entries ++ [(k, s)])) =
        Param.load σ (.vec ms) (.StateNamed entries) := by
  constructor
  · exact ⟨(Param.load_vec σ ms st 0).1, rfl, load_vec_length σ ms st 0⟩
  · intro entries k s hk
    have hg : ∀ i < ms.length,
        (State.StateNamed (entries ++ [(k, s)])).get ("mod-" ++ toString (0 + i)) =
          (State.StateNamed entries).get ("mod-" ++ toString (0 + i)) := by
      intro i hi
      have hne : ("mod-" ++ toString i) ≠ k := by
        simpa using (hk i hi).symm
      have hb : (("mod-" ++ toString i) == k) = false := by
        simpa using hne
      simp [State.get, List.lookup_append, List.lookup, hb, Option.or_none]
    simp only [Param.load, load_vec_congr_get σ ms _ _ 0 hg]

/-- C1: for a leaf container holding a present tensor, `state` followed
by `load` of that state into a freshly constructed container of the same
shape reproduces the original leaf data bit-for-bit; for an absent
optional the round trip is a no-op and absence is preserved. -/
theorem state_load_round_trip (σ : Store) (t q : Tensor)
    (hshape : q.shape = t.shape) :
    Param.leaf_data (Param.load σ (.tensor q) (Param.state σ (.tensor t))).2
      (Param.load σ (.tensor q) (Param.state σ (.tensor t))).1 =
      [Tensor.to_data σ t] ∧
    Param.leaf_data
      (Param.load σ (.optTensor (some q)) (Param.state σ (.optTensor (some t)))).2
      (Param.load σ (.optTensor (some q)) (Param.state σ (.optTensor (some t)))).1 =
      [Tensor.to_data σ t] ∧
    Param.load σ (.optTensor none) (Param.state σ (.optTensor none)) =
      (.optTensor none, σ) := by
  refine ⟨?_, ?_, rfl⟩ <;>
    simp [Param.state, Param.load, Param.leaf_data, Tensor.to_data,
      TensorData.serialize, TensorData.ofSerialize, Tensor.from_data_device,
      Store.alloc, Store.read_concat]

theorem Tensor.to_device_same (σ : Store) (t : Tensor) (dev : Device)
    (h : t.device = dev) : Tensor.to_device σ t dev = (t, σ) := by
  simp [Tensor.to_device, h]

theorem Tensor.to_device_device (σ : Store) (t : Tensor) (dev : Device) :
    (Tensor.to_device σ t dev).1.device = dev := by
  by_cases h : t.device = dev
  · rw [Tensor.to_device_same σ t dev h]
    exact h
  · simp only [Tensor.to_device, if_neg h]

mutual

theorem to_device_on_device (σ : Store) (m : Param) (d : Device) :
    Param.on_device d (Param.to_device σ m d).1 = true := by
  cases m with
  | tensor t =>
    show Param.on_device d (.tensor (Tensor.to_device σ t d).1) = true
    simp [Param.on_device, Tensor.to_device_device]
  | optTensor v =>
    cases v with
    | none => rfl
    | some t =>
      show Param.on_device d (.optTensor (some (Tensor.to_device σ t d).1)) = true
      simp [Param.on_device, Tensor.to_device_device]
  | module v => simpa [Param.to_device, Param.on_device] using to_device_on_device σ v d
  | vec ms => simpa [Param.to_device, Param.on_device] using to_device_vec_on_device σ ms d

theorem to_device_vec_on_device (σ : Store) (ms : List Param) (d : Device) :
    Param.on_device_vec d (Param.to_device_vec σ ms d).1 = true := by
  cases ms with
  | nil => rfl
  | cons m ms =>
    simp [Param.to_device_vec, Param.on_device_vec, to_device_on_device σ m d,
      to_device_vec_on_device (Param.to_device σ m d).2 ms d]

end

mutual

theorem to_device_noop_of_on_device (σ : Store) (m : Param) (d : Device)
    (h : Param.on_device d m = true) : Param.to_device σ m d = (m, σ) := by
  cases m with
  | tensor t =>
    have ht : t.device = d := by simpa [Param.on_device] using h
    simp [Param.to_device, Tensor.to_device, ht]
  | optTensor v =>
    cases v with
    | none => rfl
    | some t =>
      have ht : t.device = d := by simpa [Param.on_device] using h
      simp [Param.to_device, Tensor.to_device, ht]
  | module v =>
    have hv := to_device_noop_of_on_device σ v d (by simpa [Param.on_device] using h)
    simp [Param.to_device, hv]
  | vec ms =>
    have hv := to_device_vec_noop_of_on_device σ ms d (by simpa [Param.on_device] using h)
    simp [Param.to_device, hv]

theorem to_device_vec_noop_of_on_device (σ : Store) (ms : List Param) (d : Device)
    (h : Param.on_device_vec d ms = true) : Param.to_device_vec σ ms d = (ms, σ) := by
  cases ms with
  | nil => rfl
  | cons m ms =>
    have h1 : Param.on_device d m = true := by
      simpa [Param.on_device_vec] using (Bool.and_elim_left (by simpa [Param.on_device_vec] using h))
    have h2 : Param.on_device_vec d ms = true := by
      simpa [Param.on_device_vec] using (Bool.and_elim_right (by simpa [Param.on_device_vec] using h))
    simp [Param.to_device_vec, to_device_noop_of_on_device σ m d h1,
      to_device_vec_noop_of_on_device σ ms d h2]

end

/-- C7: `to_device` is idempotent: the second application with the same
device is an exact no-op on the container and the store, and on a leaf
already resident on `d` a single application is already a no-op. -/
theorem to_device_idempotent (σ : Store) (m : Param) (d : Device) :
    Param.to_device (Param.to_device σ m d).2 (Param.to_device σ m d).1 d =
      ((Param.to_device σ m d).1, (Param.to_device σ m d).2) ∧
    ∀ t : Tensor, t.device = d →
      Param.to_device σ (.tensor t) d = (.tensor t, σ) := by
  constructor
  · exact to_device_noop_of_on_device _ _ d (to_device_on_device σ m d)
  · intro t ht
    exact to_device_noop_of_on_device σ (.tensor t) d (by simp [Param.on_device, ht])

theorem to_device_idempotent_witness :
    (⟨0, [1], ⟨2⟩⟩ : Tensor).device = ⟨2⟩ ∧
    Param.to_device [] (.tensor ⟨0, [1], ⟨2⟩⟩) ⟨2⟩ = (.tensor ⟨0, [1], ⟨2⟩⟩, []) :=
  ⟨rfl, (to_device_idempotent [] (.tensor ⟨0, [1], ⟨2⟩⟩) ⟨2⟩).2 _ rfl⟩

mutual

theorem inner_num_params (σ : Store) (m : Param) :
    Param.num_params (Param.inner σ m).1 = Param.num_params m := by
  cases m with
  | tensor t => simp [Param.inner, Tensor.inner, Store.alloc, Param.num_params]
  | optTensor v =>
    cases v with
    | none => rfl
    | some t => simp [Param.inner, Tensor.inner, Store.alloc, Param.num_params]
  | module v => simpa [Param.inner, Param.num_params] using inner_num_params σ v
  | vec ms => simpa [Param.inner, Param.num_params] using inner_vec_num_params σ ms

theorem inner_vec_num_params (σ : Store) (ms : List Param) :
    Param.num_params_vec (Param.inner_vec σ ms).1 = Param.num_params_vec ms := by
  cases ms with
  | nil => rfl
  | cons m ms =>
    simp [Param.inner_vec, Param.num_params_vec, inner_num_params σ m,
      inner_vec_num_params (Param.inner σ m).2 ms]

end

mutual

theorem inner_store_extends (σ : Store) (m : Param) :
    ∃ ext : Store, (Param.inner σ m).2 = σ ++ ext := by
  cases m with
  | tensor t => exact ⟨[Store.read σ t.id], rfl⟩
  | optTensor v =>
    cases v with
    | none => exact ⟨[], by simp [Param.inner]⟩
    | some t => exact ⟨[Store.read σ t.id], rfl⟩
  | module v => simpa [Param.inner] using inner_store_extends σ v
  | vec ms => simpa [Param.inner] using inner_vec_store_extends σ ms

theorem inner_vec_store_extends (σ : Store) (ms : List Param) :
    ∃ ext : Store, (Param.inner_vec σ ms).2 = σ ++ ext := by
  cases ms with
  | nil => exact ⟨[], by simp [Param.inner_vec]⟩
  | cons m ms =>
    obtain ⟨e1, h1⟩ := inner_store_extends σ m
    obtain ⟨e2, h2⟩ := inner_vec_store_extends (Param.inner σ m).2 ms
    refine ⟨e1 ++ e2, ?_⟩
    simp only [Param.inner_vec]
    rw [h2, h1, List.append_assoc]

end

mutual

theorem inner_ids_ge (σ : Store) (m : Param) :
    ∀ j ∈ Param.tensor_ids (Param.inner σ m).1, σ.length ≤ j := by
  cases m with
  | tensor t =>
    intro j hj
    simp [Param.inner, Tensor.inner, Store.alloc, Param.tensor_ids] at hj
    omega
  | optTensor v =>
    cases v with
    | none => intro j hj; simp [Param.inner, Param.tensor_ids] at hj
    | some t =>
      intro j hj
      simp [Param.inner, Tensor.inner, Store.alloc, Param.tensor_ids] at hj
      omega
  | module v =>
    intro j hj
    exact inner_ids_ge σ v j (by simpa [Param.inner, Param.tensor_ids] using hj)
  | vec ms =>
    intro j hj
    exact inner_vec_ids_ge σ ms j (by simpa [Param.inner, Param.tensor_ids] using hj)

theorem inner_vec_ids_ge (σ : Store) (ms : List Param) :
    ∀ j ∈ Param.tensor_ids_vec (Param.inner_vec σ ms).1, σ.length ≤ j := by
  cases ms with
  | nil => intro j hj; simp [Param.inner_vec, Param.tensor_ids_vec] at hj
  | cons m ms =>
    intro j hj
    simp only [Param.inner_vec, Param.tensor_ids_vec, List.mem_append] at hj
    rcases hj with hj | hj
    · exact inner_ids_ge σ m j hj
    · have h2 := inner_vec_ids_ge (Param.inner σ m).2 ms j hj
      obtain ⟨e, he⟩ := inner_store_extends σ m
      rw [he] at h2
      simp only [List.length_append] at h2
      omega

end

mutual

theorem leaf_data_write_ne (σ : Store) (m : Param) (i : Nat) (w : List Int)
    (h : ∀ j ∈ Param.tensor_ids m, i ≠ j) :
    Param.leaf_data (Store.write σ i w) m = Param.leaf_data σ m := by
  cases m with
  | tensor t =>
    have ht : i ≠ t.id := h t.id (by simp [Param.tensor_ids])
    simp [Param.leaf_data, Tensor.to_data, Store.read_write_ne σ i t.id w ht]
  | optTensor v =>
    cases v with
    | none => rfl
    | some t =>
      have ht : i ≠ t.id := h t.id (by simp [Param.tensor_ids])
      simp [Param.leaf_data, Tensor.to_data, Store.read_write_ne σ i t.id w ht]
  | module v =>
    simpa [Param.leaf_data] using
      leaf_data_write_ne σ v i w (by simpa [Param.tensor_ids] using h)
  | vec ms =>
    simpa [Param.leaf_data] using
      leaf_data_write_vec_ne σ ms i w (by simpa [Param.tensor_ids] using h)

theorem leaf_data_write_vec_ne (σ : Store) (ms : List Param) (i : Nat) (w : List Int)
    (h : ∀ j ∈ Param.tensor_ids_vec ms, i ≠ j) :
    Param.leaf_data_vec (Store.write σ i w) ms = Param.leaf_data_vec σ ms := by
  cases ms with
  | nil => rfl
  | cons m ms =>
    simp [Param.leaf_data_vec,
      leaf_data_write_ne σ m i w
        (fun j hj => h j (by simp [Param.tensor_ids_vec, hj])),
      leaf_data_write_vec_ne σ ms i w
        (fun j hj => h j (by simp [Param.tensor_ids_vec, hj]))]

end

/-- C8: `inner` produces a copy whose `num_params` equals the original's
exactly, and mutating any of the original's leaf tensor buffers
afterwards does not change the copy's data: the copy shares no mutable
state with the original. -/
theorem inner_independent (σ : Store) (m : Param) (hwf : Param.wf σ m) :
    Param.num_params (Param.inner σ m).1 = Param.num_params m ∧
    ∀ i ∈ Param.tensor_ids m, ∀ w : List Int,
      Param.leaf_data (Store.write (Param.inner σ m).2 i w) (Param.inner σ m).1 =
        Param.leaf_data (Param.inner σ m).2 (Param.inner σ m).1 := by
  refine ⟨inner_num_params σ m, ?_⟩
  intro i hi w
  refine leaf_data_write_ne _ _ i w fun j hj => ?_
  have h1 : i < σ.length := hwf i hi
  have h2 : σ.length ≤ j := inner_ids_ge σ m j hj
  omega

theorem inner_independent_witness :
    Param.wf [[7]] (.tensor ⟨0, [1], ⟨0⟩⟩) ∧
    Param.num_params (Param.inner [[7]] (.tensor ⟨0, [1], ⟨0⟩⟩)).1 =
      Param.num_params (.tensor ⟨0, [1], ⟨0⟩⟩) ∧
    Param.leaf_data (Store.write (Param.inner [[7]] (.tensor ⟨0, [1], ⟨0⟩⟩)).2 0 [9])
        (Param.inner [[7]] (.tensor ⟨0, [1], ⟨0⟩⟩)).1 =
      Param.leaf_data (Param.inner [[7]] (.tensor ⟨0, [1], ⟨0⟩⟩)).2
        (Param.inner [[7]] (.tensor ⟨0, [1], ⟨0⟩⟩)).1 := by
  have hwf : Param.wf [[7]] (.tensor ⟨0, [1], ⟨0⟩⟩) := by
    intro i hi
    simp [Param.tensor_ids] at hi
    simp [hi]
  exact ⟨hwf, (inner_independent _ _ hwf).1,
    (inner_independent _ _ hwf).2 0 (by simp [Param.tensor_ids]) [9]⟩

theorem state_load_round_trip_witness :
    (⟨0, [1], ⟨1⟩⟩ : Tensor).shape = (⟨0, [1], ⟨0⟩⟩ : Tensor).shape ∧
    Param.leaf_data
      (Param.load [[5]] (.tensor ⟨0, [1], ⟨1⟩⟩) (Param.state [[5]] (.tensor ⟨0, [1], ⟨0⟩⟩))).2
      (Param.load [[5]] (.tensor ⟨0, [1], ⟨1⟩⟩) (Param.state [[5]] (.tensor ⟨0, [1], ⟨0⟩⟩))).1 =
      [Tensor.to_data [[5]] ⟨0, [1], ⟨0⟩⟩] :=
  ⟨rfl, (state_load_round_trip [[5]] ⟨0, [1], ⟨0⟩⟩ ⟨0, [1], ⟨1⟩⟩ rfl).1⟩

theorem vec_load_missing_key_witness :
    0 < ([Param.optTensor none] : List Param).length ∧
    ([] : StateNamedEntries).lookup ("mod-" ++ toString 0) = none ∧
    (State.StateNamed []).get ("mod-" ++ toString 0) = .StateNamed [] ∧
    ∃ ms' : List Param,
      (Param.load [] (.vec [Param.optTensor none]) (.StateNamed [])).1 = .vec ms' ∧
      ms'[0]? = ([Param.optTensor none] : List Param)[0]? := by
  have h := vec_load_missing_key [] [Param.optTensor none] [] 0 (by decide) rfl
  exact ⟨by decide, rfl, h.1, h.2⟩

theorem vec_load_preserves_length_witness :
    (∃ ms' : List Param,
      (Param.load [] (.vec [Param.optTensor none]) (.StateNamed [])).1 = .vec ms' ∧
      ms'.length = 1) ∧
    (∀ i < ([Param.optTensor none] : List Param).length, "x" ≠ "mod-" ++ toString i) ∧
    Param.load [] (.vec [Param.optTensor none]) (.StateNamed ([] ++ [("x", .StateNamed [])])) =
      Param.load [] (.vec [Param.optTensor none]) (.StateNamed []) := by
  have h := vec_load_preserves_length [] [Param.optTensor none] (.StateNamed [])
  refine ⟨?_, by decide, h.2 [] "x" (.StateNamed []) (by decide)⟩
  obtain ⟨ms', h1, h2⟩ := h.1
  exact ⟨ms', h1, by simpa using h2⟩

end Burn
